import Mathlib

/-!
Verification of the systemic-risk-index pipeline.

The repository has two stages, each a notebook:

* Stage 1 (data sourcing and preprocessing): downloads daily series from
  yfinance and FRED, consolidates them with an outer join on the date index,
  resamples to weekly frequency anchored on Friday taking the last value of
  each week, forward-fills missing values, and drops rows that still contain
  missing values.

* Stage 2 (SRI creation): selects the columns VIX, MOVE and BAMLC0A0CMEY from
  the stage-1 artifact, standardizes them with StandardScaler, applies PCA
  with one component, prints the component loadings, and rescales the raw
  component to the range 0..100 with MinMaxScaler.

The shallow embedding below models numeric cells as rationals, timestamps as
integers (day numbers), an absent cell as `none`, and a weekly panel as a
list of (timestamp, row) pairs with rows stored as `List (Option ℚ)`.
-/

/-! ## Stage 2: column selection -/

/-- Tickers requested from yfinance in stage 1; `yf.download(...)["Close"]`
names its columns by these ticker strings, caret included. -/
def yfTickers : List String :=
  ["SPY", "GLD", "TLT", "UUP", "^VIX", "^MOVE"]

/-- Series keys used for the FRED download in stage 1; each becomes a column
of `fred_data` under its key. -/
def fredTickers : List String :=
  ["T10Y2Y", "BAMLC0A0CMEY", "USRECP"]

/-- Columns of the stage-1 artifact `cleaned_market_data.csv`:
`pd.concat([yf_data, fred_data], axis=1)` concatenates the column sets. -/
def stage1Columns : List String := yfTickers ++ fredTickers

/-- The columns stage 2 selects: `df[["VIX", "MOVE", "BAMLC0A0CMEY"]]`. -/
def riskFactorNames : List String := ["VIX", "MOVE", "BAMLC0A0CMEY"]

/-- Embeds pandas column selection `df[wanted]`: if any wanted column is
absent from the frame, a KeyError naming the missing columns is raised and
nothing downstream runs; otherwise the selected columns are returned. -/
def selectColumns (cols wanted : List String) : Except (List String) (List String) :=
  let missing := wanted.filter (fun c => !(cols.contains c))
  if missing.isEmpty then .ok wanted else .error missing

/-! ## Stage 2: standardization (StandardScaler) -/

/-- Mean of a column, as computed by StandardScaler over all rows. -/
def colMean (l : List ℚ) : ℚ := l.sum / l.length

/-- Population variance (ddof 0), the variance StandardScaler uses. -/
def popVar (l : List ℚ) : ℚ :=
  ((l.map (fun x => (x - colMean l) ^ 2)).sum) / l.length

/-- sklearn `_handle_zeros_in_scale`: a zero scale is replaced by 1 so that
the division never blows up; a constant column is thus mapped to zeros. -/
def handleZeroScale (s : ℚ) : ℚ := if s = 0 then 1 else s

/-- One column of `StandardScaler.fit_transform`: subtract the column mean
and divide by the scale. The scale `s` stands for the square root of
`popVar l` (supplied, since the square root leaves ℚ); theorems relate it to
`popVar` by `s ^ 2 = popVar l`. -/
def standardizeCol (l : List ℚ) (s : ℚ) : List ℚ :=
  l.map (fun x => (x - colMean l) / handleZeroScale s)

/-- Failure taxonomy of the spec's error-handling design. -/
inductive PipelineFailure
  | DegenerateStatistic
deriving DecidableEq, Repr

/-- The standardization step as the code runs it, with the failure channel
made explicit: `StandardScaler.fit_transform` never raises on degenerate
input, so every input is mapped to `.ok` of the transformed column. -/
def standardizeColChecked (l : List ℚ) (s : ℚ) :
    Except PipelineFailure (List ℚ) :=
  .ok (standardizeCol l s)

/-- `StandardScaler.fit_transform` on the three selected risk-factor columns,
column by column (`s1 s2 s3` stand for the three standard deviations). -/
def standardizeMatrix (c1 c2 c3 : List ℚ) (s1 s2 s3 : ℚ) :
    List ℚ × List ℚ × List ℚ :=
  (standardizeCol c1 s1, standardizeCol c2 s2, standardizeCol c3 s3)

/-! ## Stage 2: PCA output and the post-PCA steps -/

/-- Dot product of two equally long lists. -/
def dotL (a b : List ℚ) : ℚ := (List.zipWith (· * ·) a b).sum

/-- Population covariance of two columns. -/
def popCov (a b : List ℚ) : ℚ :=
  dotL (a.map (fun x => x - colMean a)) (b.map (fun x => x - colMean b)) / a.length

/-- Covariance matrix of the three standardized columns, the matrix whose
top eigenvector PCA extracts. -/
def covMatrix3 (c1 c2 c3 : List ℚ) : List (List ℚ) :=
  [[popCov c1 c1, popCov c1 c2, popCov c1 c3],
   [popCov c2 c1, popCov c2 c2, popCov c2 c3],
   [popCov c3 c1, popCov c3 c2, popCov c3 c3]]

/-- Matrix-vector product over list-of-rows matrices. -/
def matVec (m : List (List ℚ)) (v : List ℚ) : List ℚ := m.map (fun r => dotL r v)

/-- Projection of each data row onto a loading vector: the latent factor
`pca.fit_transform` returns, written out as row dot products. -/
def projectRows (c1 c2 c3 : List ℚ) (w : List ℚ) : List ℚ :=
  (List.zip c1 (List.zip c2 c3)).map
    (fun p => dotL [p.1, p.2.1, p.2.2] w)

/-- Sample minimum as MinMaxScaler computes it (0 on an empty column,
which the code never feeds it). -/
def listMin : List ℚ → ℚ
  | [] => 0
  | x :: xs => xs.foldl min x

/-- Sample maximum as MinMaxScaler computes it. -/
def listMax : List ℚ → ℚ
  | [] => 0
  | x :: xs => xs.foldl max x

/-- `MinMaxScaler(feature_range=(0, 100)).fit_transform`: affine rescale
sending the sample minimum to 0 and the sample maximum to 100. -/
def minMaxScale100 (l : List ℚ) : List ℚ :=
  l.map (fun x => (x - listMin l) * 100 / (listMax l - listMin l))

/-- Steps 4 to 6 of the SRI notebook, exactly as written: `sri_raw` wraps the
latent factor unchanged, step 5 only builds and prints the loadings series,
and step 6 rescales the raw factor with MinMaxScaler. No sign flip is applied
to either the factor or the loadings at any point. -/
def sriPostPCA (latent loadings : List ℚ) : List ℚ × List ℚ :=
  (minMaxScale100 latent, loadings)

/-! ## Stage 1: consolidation (outer join) -/

/-- One raw series: observations as (timestamp, value) pairs in time order. -/
abbrev RawSeries : Type := List (ℤ × ℚ)

/-- A source frame: named raw series sharing nothing but the time axis. -/
abbrev Frame : Type := List (String × RawSeries)

/-- Insert a timestamp into a sorted duplicate-free timestamp list. -/
def insertT (t : ℤ) : List ℤ → List ℤ
  | [] => [t]
  | s :: rest =>
      if t < s then t :: s :: rest
      else if t = s then s :: rest
      else s :: insertT t rest

/-- Sorted duplicate-free union of a bag of timestamps. -/
def sortedUnion (ts : List ℤ) : List ℤ := ts.foldr insertT []

/-- All timestamps observed anywhere in a frame. -/
def frameStamps (f : Frame) : List ℤ :=
  f.flatMap (fun c => c.2.map Prod.fst)

/-- `pd.concat([a, b], axis=1, join="outer")`: the row index becomes the
sorted union of both frames' timestamps, the columns are the two column sets
side by side, and each column is realigned to the new index, with `none`
wherever its series has no observation at that timestamp. -/
def concatOuter (a b : Frame) : List ℤ × List (String × List (Option ℚ)) :=
  let idx := sortedUnion (frameStamps a ++ frameStamps b)
  (idx, (a ++ b).map (fun c => (c.1, idx.map (fun t => c.2.lookup t))))

/-! ## Stage 1: weekly resample, forward fill, dropna -/

/-- A row of the weekly panel: one optional value per column. -/
abbrev Row : Type := List (Option ℚ)

/-- The label `resample("W-FRI")` gives a timestamp: the first day at or
after `t` that falls on the anchor weekday `a` (day numbers modulo 7). -/
def weekEnd (a t : ℤ) : ℤ := t + (a - t) % 7

/-- The aggregated row of one weekly bucket: for each of the `w` columns,
the last non-absent observation whose timestamp labels to this bucket
(pandas `.last()` skips absent values; absent stays absent if the bucket
holds no observation for that column). -/
def bucketRow (a : ℤ) (w : ℕ) (rows : List (ℤ × Row)) (lab : ℤ) : Row :=
  (List.range w).map (fun k =>
    ((rows.filter (fun p => weekEnd a p.1 == lab)).filterMap
      (fun p => p.2.getD k none)).getLast?)

/-- The grid of weekly buckets: `n` rows labelled `w0`, `w0 + 7`, ...,
each aggregated with `bucketRow`. -/
def resampleGrid (a : ℤ) (w : ℕ) (rows : List (ℤ × Row)) (w0 : ℤ) (n : ℕ) :
    List (ℤ × Row) :=
  (List.range n).map
    (fun i : ℕ => (w0 + 7 * (i : ℤ), bucketRow a w rows (w0 + 7 * (i : ℤ))))

/-- `all_data.resample("W-FRI").last()` with anchor `a` and width `w`: one
row per week label from the first observation's week to the last one's,
stepping seven days, each aggregated with `bucketRow`. -/
def resampleWeekly (a : ℤ) (w : ℕ) (rows : List (ℤ × Row)) : List (ℤ × Row) :=
  match rows.head?, rows.getLast? with
  | some p0, some p1 =>
      resampleGrid a w rows (weekEnd a p0.1)
        (((weekEnd a p1.1 - weekEnd a p0.1) / 7).toNat + 1)
  | _, _ => []

/-- Filling one cell: an absent cell takes the carried value, a present cell
keeps its own value (and becomes the new carry). -/
def fillCell (carry cell : Option ℚ) : Option ℚ :=
  match cell with
  | none => carry
  | some v => some v

/-- `weekly_data.ffill()`: scan rows in time order carrying, per column, the
most recent non-absent value, and fill each absent cell from the carry. -/
def ffillFrom (carry : Row) : List (ℤ × Row) → List (ℤ × Row)
  | [] => []
  | p :: rest =>
      let r := List.zipWith fillCell carry p.2
      (p.1, r) :: ffillFrom r rest

/-- Forward fill of a width-`w` weekly panel, starting with nothing carried. -/
def ffillPanel (w : ℕ) (rows : List (ℤ × Row)) : List (ℤ × Row) :=
  ffillFrom (List.replicate w none) rows

/-- A row with no absent cell. -/
def rowComplete (r : Row) : Bool := r.all (fun c => c.isSome)

/-- `weekly_data.dropna()`: drop every row that contains any absent cell. -/
def dropnaRows (rows : List (ℤ × Row)) : List (ℤ × Row) :=
  rows.filter (fun p => rowComplete p.2)

/-- Modelled from the spec: the leading-row truncation rule of section 4.2,
which the source expresses through `dropna` — drop rows from the start until
the first row where every column is non-absent, and keep everything from
that row onward. -/
def truncateLeading (rows : List (ℤ × Row)) : List (ℤ × Row) :=
  rows.dropWhile (fun p => !(rowComplete p.2))

/-- The stage-1 cleaning chain exactly as the notebook runs it:
resample to weekly, forward fill, then drop rows with absent cells. -/
def cleanWeekly (a : ℤ) (w : ℕ) (rows : List (ℤ × Row)) : List (ℤ × Row) :=
  dropnaRows (ffillPanel w (resampleWeekly a w rows))

/-! ## Helper lemmas: constant columns -/

lemma colMean_replicate (n : ℕ) (c : ℚ) (hn : n ≠ 0) :
    colMean (List.replicate n c) = c := by
  simp only [colMean, List.sum_replicate, List.length_replicate, nsmul_eq_mul]
  exact mul_div_cancel_left₀ c (by exact_mod_cast hn)

lemma popVar_replicate (n : ℕ) (c : ℚ) (hn : n ≠ 0) :
    popVar (List.replicate n c) = 0 := by
  simp [popVar, colMean_replicate n c hn, List.map_replicate]

lemma standardizeCol_replicate (n : ℕ) (c : ℚ) (hn : n ≠ 0) :
    standardizeCol (List.replicate n c) 0 = List.replicate n 0 := by
  simp [standardizeCol, handleZeroScale, colMean_replicate n c hn, List.map_replicate]

/-! ## C2 -/

/-- C2, counterexample: on the constant column [5, 5, 5, 5] (population
variance 0, hence scale sqrt 0 = 0), the code's standardization raises
nothing: it returns the all-zero column, a silently degenerate output,
not a DegenerateStatistic failure. -/
theorem standardize_constant_returns_ok_zeros :
    popVar [5, 5, 5, 5] = 0 ∧
    standardizeColChecked [5, 5, 5, 5] 0 = .ok [0, 0, 0, 0] ∧
    standardizeColChecked [5, 5, 5, 5] 0 ≠ .error .DegenerateStatistic := by
  refine ⟨?_, ?_, by simp [standardizeColChecked]⟩
  · norm_num [popVar, colMean]
  · norm_num [standardizeColChecked, standardizeCol, colMean, handleZeroScale]

/-- C2, amended: for every nonempty constant-valued column (and the scale
that StandardScaler derives from it, the square root of its zero variance),
the standardization raises no failure at all: sklearn replaces the zero
scale by 1 and returns the all-zero column — finite, silently degenerate
output rather than a named DegenerateStatistic error. -/
theorem standardize_constant_silent_zero_output (l : List ℚ) (c s : ℚ)
    (hne : l ≠ []) (hconst : ∀ x ∈ l, x = c) (hs : s ^ 2 = popVar l) :
    standardizeColChecked l s = .ok (List.replicate l.length 0) := by
  have hrep : l = List.replicate l.length c := List.eq_replicate_iff.2 ⟨rfl, hconst⟩
  have hn : l.length ≠ 0 := fun h => hne (List.length_eq_zero.1 h)
  have hv : popVar l = 0 := by
    rw [hrep]; exact popVar_replicate l.length c hn
  have hs0 : s = 0 := sq_eq_zero_iff.1 (hs.trans hv)
  subst hs0
  have hstd : standardizeCol l 0 = List.replicate l.length 0 := by
    conv_lhs => rw [hrep]
    exact standardizeCol_replicate l.length c hn
  simp [standardizeColChecked, hstd]

/-- C2, witness for the amended statement at the column [5, 5, 5, 5]. -/
theorem standardize_constant_silent_zero_output_witness :
    ([5, 5, 5, 5] : List ℚ) ≠ [] ∧
    standardizeColChecked [5, 5, 5, 5] 0 = .ok (List.replicate 4 0) :=
  ⟨by decide,
   standardize_constant_silent_zero_output [5, 5, 5, 5] 5 0 (by decide)
     (by decide) (by norm_num [popVar, colMean])⟩

/-! ## C4 -/

/-- C4: the stage-1 artifact's columns are the yfinance tickers (caret
included: "^VIX", "^MOVE") followed by the FRED keys, but stage 2 selects
"VIX" and "MOVE"; the selection therefore fails on every run of the
pipeline, raising a KeyError that names exactly the two missing columns,
and nothing after the selection (no output artifact) is produced. -/
theorem stage2_column_selection_fails :
    selectColumns stage1Columns riskFactorNames = .error ["VIX", "MOVE"] := by rfl

/-! ## C9 -/

lemma fillCell_fillCell (a c : Option ℚ) :
    fillCell a (fillCell a c) = fillCell a c := by
  cases a <;> cases c <;> rfl

lemma zipWith_fillCell_self :
    ∀ (acc r : Row),
      List.zipWith fillCell acc (List.zipWith fillCell acc r)
        = List.zipWith fillCell acc r
  | [], _ => by simp
  | _ :: _, [] => by simp
  | a :: acc, c :: r => by
      simp only [List.zipWith_cons_cons, fillCell_fillCell]
      rw [zipWith_fillCell_self acc r]

lemma ffillFrom_ffillFrom :
    ∀ (rows : List (ℤ × Row)) (acc : Row),
      ffillFrom acc (ffillFrom acc rows) = ffillFrom acc rows
  | [], _ => rfl
  | p :: rest, acc => by
      simp only [ffillFrom, zipWith_fillCell_self]
      rw [ffillFrom_ffillFrom rest]

/-- C9: forward-fill is idempotent — applying the panel-level forward fill
twice yields exactly the panel obtained by applying it once, for every
weekly panel of any width. -/
theorem ffill_idempotent (w : ℕ) (rows : List (ℤ × Row)) :
    ffillPanel w (ffillPanel w rows) = ffillPanel w rows :=
  ffillFrom_ffillFrom rows (List.replicate w none)

/-! ## Helper lemmas: sums, means, variances -/

lemma sum_map_center_div (l : List ℚ) (m c : ℚ) :
    (l.map (fun x => (x - m) / c)).sum = (l.sum - l.length * m) / c := by
  induction l with
  | nil => simp
  | cons a t ih =>
      simp only [List.map_cons, List.sum_cons, ih, List.length_cons]
      push_cast
      ring

lemma sum_map_div_const (l : List ℚ) (f : ℚ → ℚ) (c : ℚ) :
    (l.map (fun x => f x / c)).sum = (l.map f).sum / c := by
  induction l with
  | nil => simp
  | cons a t ih => simp [ih, add_div]

lemma length_cast_ne_zero {l : List ℚ} (h : l ≠ []) : (l.length : ℚ) ≠ 0 := by
  have : l.length ≠ 0 := fun hl => h (List.length_eq_zero.1 hl)
  exact_mod_cast this

lemma colMean_standardizeCol (l : List ℚ) (s : ℚ) (h : l ≠ []) :
    colMean (standardizeCol l s) = 0 := by
  have hn := length_cast_ne_zero h
  unfold colMean standardizeCol
  rw [sum_map_center_div, List.length_map]
  have hz : l.sum - (l.length : ℚ) * colMean l = 0 := by
    unfold colMean
    field_simp
  rw [hz, zero_div, zero_div]

lemma popVar_ne_zero_nonempty {l : List ℚ} {s : ℚ} (hs : s ≠ 0)
    (hv : s ^ 2 = popVar l) : l ≠ [] := by
  intro h
  subst h
  simp [popVar] at hv
  exact hs hv

lemma popVar_standardizeCol (l : List ℚ) (s : ℚ) (hs : s ≠ 0)
    (hv : s ^ 2 = popVar l) : popVar (standardizeCol l s) = 1 := by
  have hne : l ≠ [] := popVar_ne_zero_nonempty hs hv
  have hn := length_cast_ne_zero hne
  have hm := colMean_standardizeCol l s hne
  have hk : handleZeroScale s = s := if_neg hs
  unfold popVar
  rw [hm]
  have hlen : (standardizeCol l s).length = l.length := by
    simp [standardizeCol]
  rw [hlen]
  have hmap : (standardizeCol l s).map (fun y => (y - 0) ^ 2)
      = l.map (fun x => ((x - colMean l) ^ 2) / s ^ 2) := by
    unfold standardizeCol
    rw [List.map_map, hk]
    refine List.map_congr_left (fun x _ => ?_)
    simp [div_pow]
  rw [hmap, sum_map_div_const l (fun x => (x - colMean l) ^ 2) (s ^ 2)]
  have hS : (l.map (fun x => (x - colMean l) ^ 2)).sum = popVar l * l.length := by
    unfold popVar
    field_simp
  rw [hS, ← hv]
  field_simp

/-! ## C8 -/

/-- C8: standardizing each of the three risk-factor columns subtracts the
column mean over all rows and divides by the column's standard deviation
(`s i` with `s i ^ 2 = popVar c i`), so every column of the standardized
matrix has mean exactly 0 and population variance (hence standard
deviation) exactly 1 over the full sample. -/
theorem standardizeMatrix_mean_zero_unit_var (c1 c2 c3 : List ℚ) (s1 s2 s3 : ℚ)
    (h1 : s1 ≠ 0) (e1 : s1 ^ 2 = popVar c1)
    (h2 : s2 ≠ 0) (e2 : s2 ^ 2 = popVar c2)
    (h3 : s3 ≠ 0) (e3 : s3 ^ 2 = popVar c3) :
    colMean (standardizeMatrix c1 c2 c3 s1 s2 s3).1 = 0 ∧
    popVar (standardizeMatrix c1 c2 c3 s1 s2 s3).1 = 1 ∧
    colMean (standardizeMatrix c1 c2 c3 s1 s2 s3).2.1 = 0 ∧
    popVar (standardizeMatrix c1 c2 c3 s1 s2 s3).2.1 = 1 ∧
    colMean (standardizeMatrix c1 c2 c3 s1 s2 s3).2.2 = 0 ∧
    popVar (standardizeMatrix c1 c2 c3 s1 s2 s3).2.2 = 1 :=
  ⟨colMean_standardizeCol c1 s1 (popVar_ne_zero_nonempty h1 e1),
   popVar_standardizeCol c1 s1 h1 e1,
   colMean_standardizeCol c2 s2 (popVar_ne_zero_nonempty h2 e2),
   popVar_standardizeCol c2 s2 h2 e2,
   colMean_standardizeCol c3 s3 (popVar_ne_zero_nonempty h3 e3),
   popVar_standardizeCol c3 s3 h3 e3⟩

/-- C8, witness on three concrete columns of variance 1. -/
theorem standardizeMatrix_mean_zero_unit_var_witness :
    (1 : ℚ) ^ 2 = popVar [1, -1, 1, -1] ∧
    (colMean (standardizeMatrix [1, -1, 1, -1] [2, 0, 2, 0] [3, 1, 3, 1] 1 1 1).1 = 0 ∧
     popVar (standardizeMatrix [1, -1, 1, -1] [2, 0, 2, 0] [3, 1, 3, 1] 1 1 1).1 = 1 ∧
     colMean (standardizeMatrix [1, -1, 1, -1] [2, 0, 2, 0] [3, 1, 3, 1] 1 1 1).2.1 = 0 ∧
     popVar (standardizeMatrix [1, -1, 1, -1] [2, 0, 2, 0] [3, 1, 3, 1] 1 1 1).2.1 = 1 ∧
     colMean (standardizeMatrix [1, -1, 1, -1] [2, 0, 2, 0] [3, 1, 3, 1] 1 1 1).2.2 = 0 ∧
     popVar (standardizeMatrix [1, -1, 1, -1] [2, 0, 2, 0] [3, 1, 3, 1] 1 1 1).2.2 = 1) :=
  ⟨by norm_num [popVar, colMean],
   standardizeMatrix_mean_zero_unit_var [1, -1, 1, -1] [2, 0, 2, 0] [3, 1, 3, 1] 1 1 1
     (by norm_num) (by norm_num [popVar, colMean])
     (by norm_num) (by norm_num [popVar, colMean])
     (by norm_num) (by norm_num [popVar, colMean])⟩

/-! ## Helper lemmas: sample minimum and maximum -/

lemma foldl_min_mem (xs : List ℚ) : ∀ x, xs.foldl min x ∈ x :: xs := by
  induction xs with
  | nil => intro x; simp
  | cons y ys ih =>
      intro x
      rw [List.foldl_cons]
      rcases List.mem_cons.1 (ih (min x y)) with h1 | h1
      · rcases min_choice x y with hc | hc
        · rw [h1, hc]; exact List.mem_cons_self _ _
        · rw [h1, hc]; exact List.mem_cons_of_mem _ (List.mem_cons_self _ _)
      · exact List.mem_cons_of_mem _ (List.mem_cons_of_mem _ h1)

lemma foldl_min_le (xs : List ℚ) : ∀ x, ∀ y ∈ x :: xs, xs.foldl min x ≤ y := by
  induction xs with
  | nil =>
      intro x y hy
      rw [List.mem_singleton] at hy
      simp [hy]
  | cons z zs ih =>
      intro x y hy
      rw [List.foldl_cons]
      have hbase : zs.foldl min (min x z) ≤ min x z :=
        ih (min x z) (min x z) (List.mem_cons_self _ _)
      rcases List.mem_cons.1 hy with rfl | h1
      · exact le_trans hbase (min_le_left _ _)
      · rcases List.mem_cons.1 h1 with rfl | h2
        · exact le_trans hbase (min_le_right _ _)
        · exact ih (min x z) y (List.mem_cons_of_mem _ h2)

lemma foldl_max_mem (xs : List ℚ) : ∀ x, xs.foldl max x ∈ x :: xs := by
  induction xs with
  | nil => intro x; simp
  | cons y ys ih =>
      intro x
      rw [List.foldl_cons]
      rcases List.mem_cons.1 (ih (max x y)) with h1 | h1
      · rcases max_choice x y with hc | hc
        · rw [h1, hc]; exact List.mem_cons_self _ _
        · rw [h1, hc]; exact List.mem_cons_of_mem _ (List.mem_cons_self _ _)
      · exact List.mem_cons_of_mem _ (List.mem_cons_of_mem _ h1)

lemma le_foldl_max (xs : List ℚ) : ∀ x, ∀ y ∈ x :: xs, y ≤ xs.foldl max x := by
  induction xs with
  | nil =>
      intro x y hy
      rw [List.mem_singleton] at hy
      simp [hy]
  | cons z zs ih =>
      intro x y hy
      rw [List.foldl_cons]
      have hbase : max x z ≤ zs.foldl max (max x z) :=
        ih (max x z) (max x z) (List.mem_cons_self _ _)
      rcases List.mem_cons.1 hy with rfl | h1
      · exact le_trans (le_max_left _ _) hbase
      · rcases List.mem_cons.1 h1 with rfl | h2
        · exact le_trans (le_max_right _ _) hbase
        · exact ih (max x z) y (List.mem_cons_of_mem _ h2)

lemma listMin_mem {l : List ℚ} (h : l ≠ []) : listMin l ∈ l := by
  cases l with
  | nil => exact absurd rfl h
  | cons x xs => exact foldl_min_mem xs x

lemma listMin_le {l : List ℚ} : ∀ y ∈ l, listMin l ≤ y := by
  cases l with
  | nil => intro y hy; exact absurd hy (List.not_mem_nil y)
  | cons x xs => exact fun y hy => foldl_min_le xs x y hy

lemma listMax_mem {l : List ℚ} (h : l ≠ []) : listMax l ∈ l := by
  cases l with
  | nil => exact absurd rfl h
  | cons x xs => exact foldl_max_mem xs x

lemma le_listMax {l : List ℚ} : ∀ y ∈ l, y ≤ listMax l := by
  cases l with
  | nil => intro y hy; exact absurd hy (List.not_mem_nil y)
  | cons x xs => exact fun y hy => le_foldl_max xs x y hy

/-! ## C3 -/

/-- C3: on every non-degenerate latent factor (sample maximum strictly above
sample minimum), the MinMaxScaler step computes exactly
100 * (x - lo) / (hi - lo); the resulting SRI column attains minimum exactly
0 and maximum exactly 100 over the sample, and every value lies in
[0, 100]. -/
theorem minMaxScale_bounds (l : List ℚ) (h : listMin l < listMax l) :
    minMaxScale100 l
      = l.map (fun x => 100 * (x - listMin l) / (listMax l - listMin l)) ∧
    listMin (minMaxScale100 l) = 0 ∧
    listMax (minMaxScale100 l) = 100 ∧
    ∀ v ∈ minMaxScale100 l, 0 ≤ v ∧ v ≤ 100 := by
  have hne : l ≠ [] := by
    rintro rfl
    simp [listMin, listMax] at h
  have hd : (0 : ℚ) < listMax l - listMin l := sub_pos.2 h
  have hbound : ∀ v ∈ minMaxScale100 l, 0 ≤ v ∧ v ≤ 100 := by
    intro v hv
    obtain ⟨x, hx, rfl⟩ := List.mem_map.1 hv
    constructor
    · exact div_nonneg
        (mul_nonneg (sub_nonneg.2 (listMin_le x hx)) (by norm_num)) (le_of_lt hd)
    · rw [div_le_iff₀ hd]
      have hxle : x ≤ listMax l := le_listMax x hx
      nlinarith
  have h0mem : (0 : ℚ) ∈ minMaxScale100 l := by
    refine List.mem_map.2 ⟨listMin l, listMin_mem hne, ?_⟩
    simp
  have h100mem : (100 : ℚ) ∈ minMaxScale100 l := by
    refine List.mem_map.2 ⟨listMax l, listMax_mem hne, ?_⟩
    field_simp
  have hres_ne : minMaxScale100 l ≠ [] := by
    intro hcontra
    rw [hcontra] at h0mem
    exact List.not_mem_nil _ h0mem
  refine ⟨?_, ?_, ?_, hbound⟩
  · refine List.map_congr_left (fun x _ => ?_)
    ring_nf
  · refine le_antisymm (listMin_le 0 h0mem) ?_
    exact (hbound _ (listMin_mem hres_ne)).1
  · refine le_antisymm (hbound _ (listMax_mem hres_ne)).2 ?_
    exact le_listMax 100 h100mem

/-- C3, witness at the factor [1, 3, 2]. -/
theorem minMaxScale_bounds_witness :
    listMin [1, 3, 2] < listMax [1, 3, 2] ∧
    (minMaxScale100 [1, 3, 2]
       = ([1, 3, 2] : List ℚ).map
           (fun x => 100 * (x - listMin [1, 3, 2]) / (listMax [1, 3, 2] - listMin [1, 3, 2])) ∧
     listMin (minMaxScale100 [1, 3, 2]) = 0 ∧
     listMax (minMaxScale100 [1, 3, 2]) = 100 ∧
     ∀ v ∈ minMaxScale100 [1, 3, 2], 0 ≤ v ∧ v ≤ 100) :=
  ⟨by decide, minMaxScale_bounds [1, 3, 2] (by decide)⟩

/-! ## C10 -/

lemma getD_minMaxScale (l : List ℚ) (i : ℕ) (hi : i < l.length) :
    (minMaxScale100 l).getD i 0
      = (l.getD i 0 - listMin l) * 100 / (listMax l - listMin l) := by
  unfold minMaxScale100
  rw [List.getD_eq_getElem _ _ (by simpa using hi), List.getElem_map,
    List.getD_eq_getElem _ _ hi]

/-- C10: the 0-100 rescaling is order-preserving — for every non-degenerate
latent factor and every pair of row positions, the rescaled value at `i` is
at most the one at `j` exactly when the raw value at `i` is at most the one
at `j`, and the rescaled values are equal exactly when the raw values are,
so the SRI ranks the weeks exactly as the raw oriented factor does. -/
theorem minMaxScale_order_iso (l : List ℚ) (i j : ℕ)
    (h : listMin l < listMax l) (hi : i < l.length) (hj : j < l.length) :
    ((minMaxScale100 l).getD i 0 ≤ (minMaxScale100 l).getD j 0
       ↔ l.getD i 0 ≤ l.getD j 0) ∧
    ((minMaxScale100 l).getD i 0 = (minMaxScale100 l).getD j 0
       ↔ l.getD i 0 = l.getD j 0) := by
  have hd : (0 : ℚ) < listMax l - listMin l := sub_pos.2 h
  have hle : ((minMaxScale100 l).getD i 0 ≤ (minMaxScale100 l).getD j 0
      ↔ l.getD i 0 ≤ l.getD j 0) := by
    rw [getD_minMaxScale l i hi, getD_minMaxScale l j hj,
      div_le_div_iff_of_pos_right hd,
      mul_le_mul_right (by norm_num : (0 : ℚ) < 100), sub_le_sub_iff_right]
  have hle' : ((minMaxScale100 l).getD j 0 ≤ (minMaxScale100 l).getD i 0
      ↔ l.getD j 0 ≤ l.getD i 0) := by
    rw [getD_minMaxScale l i hi, getD_minMaxScale l j hj,
      div_le_div_iff_of_pos_right hd,
      mul_le_mul_right (by norm_num : (0 : ℚ) < 100), sub_le_sub_iff_right]
  refine ⟨hle, ?_⟩
  rw [le_antisymm_iff, le_antisymm_iff, hle, hle']

/-- C10, witness at the factor [1, 3, 2] with rows 0 and 2. -/
theorem minMaxScale_order_iso_witness :
    listMin [1, 3, 2] < listMax [1, 3, 2] ∧
    (((minMaxScale100 [1, 3, 2]).getD 0 0 ≤ (minMaxScale100 [1, 3, 2]).getD 2 0
        ↔ ([1, 3, 2] : List ℚ).getD 0 0 ≤ ([1, 3, 2] : List ℚ).getD 2 0) ∧
     ((minMaxScale100 [1, 3, 2]).getD 0 0 = (minMaxScale100 [1, 3, 2]).getD 2 0
        ↔ ([1, 3, 2] : List ℚ).getD 0 0 = ([1, 3, 2] : List ℚ).getD 2 0)) :=
  ⟨by decide, minMaxScale_order_iso [1, 3, 2] 0 2 (by decide) (by decide) (by decide)⟩

/-! ## C1 -/

/-- C1: the notebook contains no orientation-correction step. Witnessed on
the perfectly correlated standardized dataset whose three columns all equal
[1, -1, 1, -1]: its covariance matrix is the all-ones matrix, whose trace is
3, and the vector (-1, -1, -1) satisfies C w = 3 w, so it spans the first
principal axis and (up to the library's arbitrary sign) is a legitimate PC1
loading vector with a negative loading on the reference column VIX. The
latent factor is the row projection X w = [-3, 3, -3, 3]. Steps 4 to 6 of
the notebook pass this factor through unchanged — the loadings are only
printed — so the loading on VIX is still negative after the "orientation"
step and the produced SRI covaries negatively with the VIX column, contrary
to the claim (and to the notebook's own step-5 markdown, which says the
component is multiplied by -1 when inverted). -/
theorem sri_keeps_pca_sign_unflipped :
    colMean [1, -1, 1, -1] = 0 ∧ popVar [1, -1, 1, -1] = 1 ∧
    covMatrix3 [1, -1, 1, -1] [1, -1, 1, -1] [1, -1, 1, -1]
      = [[1, 1, 1], [1, 1, 1], [1, 1, 1]] ∧
    matVec (covMatrix3 [1, -1, 1, -1] [1, -1, 1, -1] [1, -1, 1, -1]) [-1, -1, -1]
      = [3 * -1, 3 * -1, 3 * -1] ∧
    projectRows [1, -1, 1, -1] [1, -1, 1, -1] [1, -1, 1, -1] [-1, -1, -1]
      = [-3, 3, -3, 3] ∧
    sriPostPCA [-3, 3, -3, 3] [-1, -1, -1] = ([0, 100, 0, 100], [-1, -1, -1]) ∧
    (sriPostPCA [-3, 3, -3, 3] [-1, -1, -1]).2.getD 0 0 < 0 ∧
    popCov (sriPostPCA [-3, 3, -3, 3] [-1, -1, -1]).1 [1, -1, 1, -1] = -50 := by
  refine ⟨?_, ?_, ?_, ?_, ?_, ?_, by norm_num [sriPostPCA], ?_⟩
  · norm_num [colMean]
  · norm_num [popVar, colMean]
  · norm_num [covMatrix3, popCov, dotL, colMean]
  · norm_num [matVec, covMatrix3, popCov, dotL, colMean]
  · norm_num [projectRows, dotL, List.zip]
  · norm_num [sriPostPCA, minMaxScale100, listMin, listMax]
  · norm_num [popCov, sriPostPCA, minMaxScale100, listMin, listMax, dotL, colMean]

/-! ## Helper lemmas: the weekly cleaning pipeline -/

lemma ffillFrom_cons (acc : Row) (p : ℤ × Row) (rest : List (ℤ × Row)) :
    ffillFrom acc (p :: rest)
      = (p.1, List.zipWith fillCell acc p.2)
          :: ffillFrom (List.zipWith fillCell acc p.2) rest := rfl

lemma zipWith_fillCell_length (acc r : Row) (hl : r.length = acc.length) :
    (List.zipWith fillCell acc r).length = acc.length := by
  simp [List.length_zipWith, hl]

lemma rowComplete_zipWith (acc : Row) :
    ∀ r : Row, rowComplete acc = true → r.length = acc.length →
      rowComplete (List.zipWith fillCell acc r) = true := by
  induction acc with
  | nil => intro r _ _; simp [rowComplete]
  | cons a as ih =>
      intro r ha hl
      cases r with
      | nil => simp at hl
      | cons c cs =>
          simp only [rowComplete, List.all_cons, Bool.and_eq_true] at ha ⊢
          simp only [List.zipWith_cons_cons, List.all_cons, Bool.and_eq_true]
          refine ⟨?_, ih cs ha.2 (by simpa using hl)⟩
          cases c with
          | none => exact ha.1
          | some v => rfl

lemma ffill_complete :
    ∀ (rows : List (ℤ × Row)) (acc : Row),
      (∀ p ∈ rows, p.2.length = acc.length) → rowComplete acc = true →
      ∀ p ∈ ffillFrom acc rows, rowComplete p.2 = true := by
  intro rows
  induction rows with
  | nil => intro acc _ _ p hp; exact absurd hp (List.not_mem_nil p)
  | cons q rest ih =>
      intro acc hw ha p hp
      rw [ffillFrom_cons] at hp
      have hq : q.2.length = acc.length := hw q (List.mem_cons_self _ _)
      have hc : rowComplete (List.zipWith fillCell acc q.2) = true :=
        rowComplete_zipWith acc q.2 ha hq
      rcases List.mem_cons.1 hp with rfl | hp'
      · exact hc
      · refine ih (List.zipWith fillCell acc q.2) ?_ hc p hp'
        intro p' hp''
        rw [zipWith_fillCell_length acc q.2 hq]
        exact hw p' (List.mem_cons_of_mem _ hp'')

lemma ffill_filter_eq_dropWhile :
    ∀ (rows : List (ℤ × Row)) (acc : Row),
      (∀ p ∈ rows, p.2.length = acc.length) →
      dropnaRows (ffillFrom acc rows)
        = (ffillFrom acc rows).dropWhile (fun p => !(rowComplete p.2)) := by
  intro rows
  induction rows with
  | nil => intro acc _; rfl
  | cons q rest ih =>
      intro acc hw
      have hq : q.2.length = acc.length := hw q (List.mem_cons_self _ _)
      have hw' : ∀ p ∈ rest, p.2.length = (List.zipWith fillCell acc q.2).length := by
        intro p hp
        rw [zipWith_fillCell_length acc q.2 hq]
        exact hw p (List.mem_cons_of_mem _ hp)
      rw [ffillFrom_cons]
      by_cases hc : rowComplete (List.zipWith fillCell acc q.2) = true
      · unfold dropnaRows
        rw [List.filter_cons, List.dropWhile_cons]
        simp only [hc, Bool.not_true, if_true, if_false, Bool.false_eq_true]
        congr 1
        exact List.filter_eq_self.2
          (ffill_complete rest (List.zipWith fillCell acc q.2) hw' hc)
      · have hc' : rowComplete (List.zipWith fillCell acc q.2) = false :=
          Bool.eq_false_iff.2 hc
        unfold dropnaRows
        rw [List.filter_cons, List.dropWhile_cons]
        simp only [hc', Bool.not_false, if_false, if_true, Bool.false_eq_true]
        exact ih (List.zipWith fillCell acc q.2) hw'

lemma ffill_length : ∀ (rows : List (ℤ × Row)) (acc : Row),
    (ffillFrom acc rows).length = rows.length := by
  intro rows
  induction rows with
  | nil => intro acc; rfl
  | cons q rest ih => intro acc; rw [ffillFrom_cons]; simp [ih]

lemma ffill_fst : ∀ (rows : List (ℤ × Row)) (acc : Row) (m : ℕ)
    (h1 : m < (ffillFrom acc rows).length) (h2 : m < rows.length),
    ((ffillFrom acc rows).get ⟨m, h1⟩).1 = (rows.get ⟨m, h2⟩).1 := by
  intro rows
  induction rows with
  | nil => intro acc m h1 h2; simp at h2
  | cons q rest ih =>
      intro acc m h1 h2
      cases m with
      | zero => rfl
      | succ m' =>
          have h1' : m' < (ffillFrom (List.zipWith fillCell acc q.2) rest).length := by
            rw [ffill_length] at h1 ⊢
            exact Nat.lt_of_succ_lt_succ (by simpa using h1)
          exact ih (List.zipWith fillCell acc q.2) m' h1'
            (Nat.lt_of_succ_lt_succ (by simpa using h2))

lemma dropWhile_eq_drop (p : ℤ × Row → Bool) :
    ∀ l : List (ℤ × Row), ∃ k, l.dropWhile p = l.drop k := by
  intro l
  induction l with
  | nil => exact ⟨0, rfl⟩
  | cons q rest ih =>
      by_cases hq : p q = true
      · obtain ⟨k, hk⟩ := ih
        exact ⟨k + 1, by rw [List.dropWhile_cons, if_pos hq]; simpa using hk⟩
      · exact ⟨0, by rw [List.dropWhile_cons, if_neg hq]; rfl⟩

lemma weekEnd_mod (a t : ℤ) : weekEnd a t % 7 = a % 7 := by
  unfold weekEnd
  omega

lemma resampleGrid_length (a : ℤ) (w : ℕ) (rows : List (ℤ × Row)) (w0 : ℤ) (n : ℕ) :
    (resampleGrid a w rows w0 n).length = n := by
  unfold resampleGrid
  rw [List.length_map, List.length_range]

lemma resampleGrid_width (a : ℤ) (w : ℕ) (rows : List (ℤ × Row)) (w0 : ℤ) (n : ℕ) :
    ∀ p ∈ resampleGrid a w rows w0 n, p.2.length = w := by
  intro p hp
  obtain ⟨i, _, rfl⟩ := List.mem_map.1 hp
  simp [bucketRow]

lemma resampleGrid_fst (a : ℤ) (w : ℕ) (rows : List (ℤ × Row)) (w0 : ℤ) (n m : ℕ)
    (hm : m < (resampleGrid a w rows w0 n).length) :
    ((resampleGrid a w rows w0 n).get ⟨m, hm⟩).1 = w0 + 7 * (m : ℤ) := by
  unfold resampleGrid at hm ⊢
  rw [List.get_eq_getElem, List.getElem_map, List.getElem_range]

lemma resampleWeekly_shape (a : ℤ) (w : ℕ) (rows : List (ℤ × Row)) :
    ∃ w0 n, w0 % 7 = a % 7 ∧ resampleWeekly a w rows = resampleGrid a w rows w0 n := by
  unfold resampleWeekly
  rcases h0 : rows.head? with _ | p0 <;> rcases h1 : rows.getLast? with _ | p1
  · exact ⟨a, 0, rfl, by simp [resampleGrid]⟩
  · exact ⟨a, 0, rfl, by simp [resampleGrid]⟩
  · exact ⟨a, 0, rfl, by simp [resampleGrid]⟩
  · exact ⟨weekEnd a p0.1, ((weekEnd a p1.1 - weekEnd a p0.1) / 7).toNat + 1,
      weekEnd_mod a p0.1, rfl⟩

/-! ## C6 -/

/-- C6: on a forward-filled weekly panel in which no column is absent for
its entire history, the code's `dropna` (drop every row containing any
absent cell) returns exactly the table the spec's leading-row truncation
rule returns (drop rows from the start up to the first fully non-absent row,
keep everything onward): once forward-filled, a cell can only be absent
before its column's first observation, so the incomplete rows form exactly
the leading prefix. -/
theorem dropna_eq_truncate_on_ffilled (w : ℕ) (rows : List (ℤ × Row))
    (hw : ∀ p ∈ rows, p.2.length = w)
    (_hcol : ∀ k < w, ∃ p ∈ rows, (p.2.getD k none).isSome = true) :
    dropnaRows (ffillPanel w rows) = truncateLeading (ffillPanel w rows) := by
  unfold ffillPanel truncateLeading
  exact ffill_filter_eq_dropWhile rows (List.replicate w none)
    (by simpa using hw)

/-- C6, witness on a one-column panel whose first and last weeks are absent
before filling. -/
theorem dropna_eq_truncate_on_ffilled_witness :
    (∀ p ∈ [((0 : ℤ), ([none] : Row)), (7, [some 1]), (14, [none])], p.2.length = 1) ∧
    dropnaRows (ffillPanel 1 [((0 : ℤ), ([none] : Row)), (7, [some 1]), (14, [none])])
      = truncateLeading (ffillPanel 1 [((0 : ℤ), ([none] : Row)), (7, [some 1]), (14, [none])]) :=
  ⟨by decide,
   dropna_eq_truncate_on_ffilled 1 [((0 : ℤ), ([none] : Row)), (7, [some 1]), (14, [none])]
     (by decide) (by decide)⟩

/-! ## C5 -/

/-- C5: for every input, the cleaned weekly panel the stage-1 chain
(resample to weekly buckets, forward fill, drop incomplete rows) produces
has no absent cell in any retained row, every retained timestamp falls on
the configured anchor weekday, and consecutive retained timestamps are
exactly seven days apart — a strictly increasing weekly-spaced index. -/
theorem cleanWeekly_complete_and_weekly_spaced (a : ℤ) (w : ℕ)
    (rows : List (ℤ × Row)) :
    (∀ p ∈ cleanWeekly a w rows, rowComplete p.2 = true) ∧
    (∀ p ∈ cleanWeekly a w rows, p.1 % 7 = a % 7) ∧
    (∀ i : ℕ, i + 1 < (cleanWeekly a w rows).length →
      ((cleanWeekly a w rows).getD (i + 1) (0, [])).1
        = ((cleanWeekly a w rows).getD i (0, [])).1 + 7) := by
  obtain ⟨w0, n, hmod, hres⟩ := resampleWeekly_shape a w rows
  have hcw : cleanWeekly a w rows
      = dropnaRows (ffillFrom (List.replicate w none) (resampleGrid a w rows w0 n)) := by
    unfold cleanWeekly ffillPanel
    rw [hres]
  have hwid : ∀ p ∈ resampleGrid a w rows w0 n,
      p.2.length = (List.replicate w (none : Option ℚ)).length := by
    simpa using resampleGrid_width a w rows w0 n
  have hFlen : (ffillFrom (List.replicate w none) (resampleGrid a w rows w0 n)).length = n := by
    rw [ffill_length, resampleGrid_length]
  refine ⟨?_, ?_, ?_⟩
  · intro p hp
    rw [hcw] at hp
    exact (List.mem_filter.1 hp).2
  · intro p hp
    rw [hcw] at hp
    have hp1 : p ∈ ffillFrom (List.replicate w none) (resampleGrid a w rows w0 n) :=
      (List.mem_filter.1 hp).1
    obtain ⟨m, hm⟩ := List.get_of_mem hp1
    have hm2 : (m : ℕ) < (resampleGrid a w rows w0 n).length :=
      lt_of_lt_of_eq m.2 (ffill_length _ _)
    have : p.1 = ((resampleGrid a w rows w0 n).get ⟨m, hm2⟩).1 := by
      rw [← hm]
      exact ffill_fst _ _ _ _ hm2
    rw [this, resampleGrid_fst]
    omega
  · intro i hi
    rw [hcw] at hi ⊢
    rw [ffill_filter_eq_dropWhile _ _ hwid] at hi ⊢
    obtain ⟨k, hk⟩ := dropWhile_eq_drop (fun p => !(rowComplete p.2))
      (ffillFrom (List.replicate w none) (resampleGrid a w rows w0 n))
    rw [hk] at hi ⊢
    have hlen : (List.drop k (ffillFrom (List.replicate w none)
        (resampleGrid a w rows w0 n))).length
        = n - k := by
      rw [List.length_drop, hFlen]
    have hkin : k + i + 1 < n := by omega
    have hb1 : i + 1 < (List.drop k (ffillFrom (List.replicate w none)
        (resampleGrid a w rows w0 n))).length := hi
    have hb0 : i < (List.drop k (ffillFrom (List.replicate w none)
        (resampleGrid a w rows w0 n))).length := by omega
    rw [List.getD_eq_getElem _ _ hb1, List.getD_eq_getElem _ _ hb0,
      List.getElem_drop, List.getElem_drop]
    have hf1 : k + (i + 1) < (ffillFrom (List.replicate w none)
        (resampleGrid a w rows w0 n)).length := by omega
    have hf0 : k + i < (ffillFrom (List.replicate w none)
        (resampleGrid a w rows w0 n)).length := by omega
    have hg1 : k + (i + 1) < (resampleGrid a w rows w0 n).length := by
      rw [resampleGrid_length]; omega
    have hg0 : k + i < (resampleGrid a w rows w0 n).length := by
      rw [resampleGrid_length]; omega
    rw [← List.get_eq_getElem _ ⟨k + (i + 1), hf1⟩, ← List.get_eq_getElem _ ⟨k + i, hf0⟩]
    rw [ffill_fst _ _ _ _ hg1, ffill_fst _ _ _ _ hg0]
    rw [resampleGrid_fst _ _ _ _ _ _ hg1, resampleGrid_fst _ _ _ _ _ _ hg0]
    push_cast
    ring

/-! ## Helper lemmas: outer-join consolidation -/

lemma mem_insertT (t s : ℤ) : ∀ l : List ℤ, (s ∈ insertT t l ↔ s = t ∨ s ∈ l) := by
  intro l
  induction l with
  | nil => simp [insertT]
  | cons x xs ih =>
      simp only [insertT]
      split_ifs with h1 h2
      · simp [List.mem_cons]
      · subst h2
        simp [List.mem_cons]
      · simp [List.mem_cons, ih]
        tauto

lemma mem_sortedUnion (ts : List ℤ) (t : ℤ) : t ∈ sortedUnion ts ↔ t ∈ ts := by
  unfold sortedUnion
  induction ts with
  | nil => simp
  | cons x xs ih =>
      rw [List.foldr_cons, mem_insertT, ih, List.mem_cons]

lemma lookup_eq_none_iff (s : RawSeries) (t : ℤ) :
    s.lookup t = none ↔ ∀ v : ℚ, (t, v) ∉ s := by
  induction s with
  | nil => simp
  | cons p rest ih =>
      obtain ⟨t', v'⟩ := p
      rw [List.lookup_cons]
      by_cases h : t = t'
      · subst h
        simp only [beq_self_eq_true]
        constructor
        · intro hcontra; exact absurd hcontra (by simp)
        · intro hall
          exact absurd (List.mem_cons_self (t, v') rest) (hall v')
      · have hb : (t == t') = false := beq_eq_false_iff_ne.2 h
        rw [hb]
        simp only [List.mem_cons, Prod.mk.injEq]
        constructor
        · intro hn v hv
          rcases hv with hv | hv
          · exact h hv.1
          · exact (ih.1 hn v) hv
        · intro hall
          exact ih.2 (fun v hv => hall v (Or.inr hv))

lemma lookup_eq_some_iff (s : RawSeries) (t : ℤ) (v : ℚ)
    (hnd : (s.map Prod.fst).Nodup) : s.lookup t = some v ↔ (t, v) ∈ s := by
  induction s with
  | nil => simp
  | cons p rest ih =>
      obtain ⟨t', v'⟩ := p
      rw [List.map_cons, List.nodup_cons] at hnd
      rw [List.lookup_cons]
      by_cases h : t = t'
      · subst h
        simp only [beq_self_eq_true]
        constructor
        · intro hs
          rw [Option.some_inj] at hs
          subst hs
          exact List.mem_cons_self _ _
        · intro hm
          rcases List.mem_cons.1 hm with he | hm'
          · rw [Option.some_inj]
            exact (Prod.mk.injEq _ _ _ _ ▸ he).2.symm
          · exact absurd (List.mem_map_of_mem Prod.fst hm') hnd.1
      · have hb : (t == t') = false := beq_eq_false_iff_ne.2 h
        rw [hb]
        rw [ih hnd.2, List.mem_cons]
        constructor
        · exact Or.inr
        · intro hm
          rcases hm with he | hm'
          · exact absurd (Prod.mk.injEq _ _ _ _ ▸ he).1 h
          · exact hm'

/-! ## C7 -/

/-- C7: the outer-join consolidation. The column set of the consolidated
panel is the union of the two sources' column sets, a row exists for a
timestamp exactly when at least one input series observes it, and — reading
column `i` at row position `m` — a cell is absent exactly when the owning
series has no observation at that row's timestamp, and holds `v` exactly
when the owning series observes `v` there. -/
theorem concatOuter_outer_join (A B : Frame)
    (hnd : ∀ col ∈ A ++ B, (col.2.map Prod.fst).Nodup) :
    (∀ c : String,
       c ∈ (concatOuter A B).2.map Prod.fst
         ↔ c ∈ A.map Prod.fst ∨ c ∈ B.map Prod.fst) ∧
    (∀ t : ℤ, t ∈ (concatOuter A B).1
       ↔ ∃ col ∈ A ++ B, ∃ v : ℚ, (t, v) ∈ col.2) ∧
    (∀ i : ℕ, i < (A ++ B).length → ∀ m : ℕ, m < (concatOuter A B).1.length →
       ((((concatOuter A B).2.getD i ("", [])).2.getD m none = none
           ↔ ∀ v : ℚ, ((concatOuter A B).1.getD m 0, v) ∉ ((A ++ B).getD i ("", [])).2) ∧
        (∀ v : ℚ, ((((concatOuter A B).2.getD i ("", [])).2.getD m none = some v)
           ↔ ((concatOuter A B).1.getD m 0, v) ∈ ((A ++ B).getD i ("", [])).2)))) := by
  have hfst : (concatOuter A B).1
      = sortedUnion (frameStamps A ++ frameStamps B) := rfl
  have hsnd : (concatOuter A B).2
      = (A ++ B).map (fun c =>
          (c.1, (sortedUnion (frameStamps A ++ frameStamps B)).map
            (fun t => c.2.lookup t))) := rfl
  refine ⟨?_, ?_, ?_⟩
  · intro c
    rw [hsnd, List.map_map]
    have : (Prod.fst ∘ fun c : String × RawSeries =>
        (c.1, (sortedUnion (frameStamps A ++ frameStamps B)).map
          (fun t => c.2.lookup t))) = Prod.fst := rfl
    rw [this, List.map_append, List.mem_append]
  · intro t
    rw [hfst, mem_sortedUnion]
    have hflat : frameStamps A ++ frameStamps B = frameStamps (A ++ B) := by
      unfold frameStamps
      rw [List.flatMap_append]
    rw [hflat]
    unfold frameStamps
    rw [List.mem_flatMap]
    constructor
    · rintro ⟨col, hcol, ht⟩
      obtain ⟨p, hp, hpt⟩ := List.mem_map.1 ht
      exact ⟨col, hcol, p.2, by rw [← hpt]; exact hp⟩
    · rintro ⟨col, hcol, v, hv⟩
      exact ⟨col, hcol, List.mem_map.2 ⟨(t, v), hv, rfl⟩⟩
  · intro i hi m hm
    rw [hfst] at hm
    have hi' : i < ((A ++ B).map (fun c =>
        (c.1, (sortedUnion (frameStamps A ++ frameStamps B)).map
          (fun t => c.2.lookup t)))).length := by
      rw [List.length_map]; exact hi
    have hcol : (concatOuter A B).2.getD i ("", [])
        = (((A ++ B).getD i ("", [])).1,
           (sortedUnion (frameStamps A ++ frameStamps B)).map
             (fun t => ((A ++ B).getD i ("", [])).2.lookup t)) := by
      rw [hsnd, List.getD_eq_getElem _ _ hi', List.getElem_map,
        List.getD_eq_getElem _ _ hi]
    have hm' : m < ((sortedUnion (frameStamps A ++ frameStamps B)).map
        (fun t => ((A ++ B).getD i ("", [])).2.lookup t)).length := by
      rw [List.length_map]; exact hm
    have hcell : ((concatOuter A B).2.getD i ("", [])).2.getD m none
        = ((A ++ B).getD i ("", [])).2.lookup
            ((sortedUnion (frameStamps A ++ frameStamps B)).getD m 0) := by
      rw [hcol]
      rw [List.getD_eq_getElem _ _ hm', List.getElem_map,
        List.getD_eq_getElem _ _ hm]
    have hrow : (concatOuter A B).1.getD m 0
        = (sortedUnion (frameStamps A ++ frameStamps B)).getD m 0 := by
      rw [hfst]
    have hmem : (A ++ B).getD i ("", []) ∈ A ++ B := by
      rw [List.getD_eq_getElem _ _ hi]
      exact List.getElem_mem hi
    refine ⟨?_, ?_⟩
    · rw [hcell, hrow]
      exact lookup_eq_none_iff _ _
    · intro v
      rw [hcell, hrow]
      exact lookup_eq_some_iff _ _ v (hnd _ hmem)

/-- C7, witness on two one-column frames with overlapping dates. -/
theorem concatOuter_outer_join_witness :
    (∀ col ∈ ([("X", [((0 : ℤ), (1 : ℚ)), (2, 3)])] : Frame)
        ++ ([("Y", [((1 : ℤ), (5 : ℚ))])] : Frame), (col.2.map Prod.fst).Nodup) ∧
    (∀ t : ℤ, t ∈ (concatOuter [("X", [((0 : ℤ), (1 : ℚ)), (2, 3)])]
          [("Y", [((1 : ℤ), (5 : ℚ))])]).1
       ↔ ∃ col ∈ ([("X", [((0 : ℤ), (1 : ℚ)), (2, 3)])] : Frame)
           ++ ([("Y", [((1 : ℤ), (5 : ℚ))])] : Frame), ∃ v : ℚ, (t, v) ∈ col.2) :=
  ⟨by decide, (concatOuter_outer_join _ _ (by decide)).2.1⟩
